import Mathlib

/-!
Verification development for a depth-limited order-book maintainer.

The program keeps two sides of a market ladder in ordered sets keyed by a
total order on price, replaces both sides wholesale on every accepted feed
message, and renders the result.  We embed the data model and the operations
shallowly: prices are modelled as exact rationals (the feed carries decimal
literals, on which the total comparison of 64-bit floats agrees with the
numeric order), sizes as integers, the ordered set of the standard library
as a strictly sorted list, and the structured feed payloads as a JSON value
type whose numbers remember whether they arrived integer-typed or
float-typed, mirroring the decoding library.
-/

/-- One price level: a price and a contract size.  Mirrors the source struct
with a 64-bit float price (here an exact rational) and a signed 64-bit size
(here an unbounded integer; no claim exercises overflow). -/
structure Item where
  price : ℚ
  size : ℤ
deriving DecidableEq, Repr

/-- Total comparison on prices, modelling the total ordering comparison of
64-bit floats restricted to the exact decimal values the feed carries, where
it coincides with the numeric order. -/
def qcmp (a b : ℚ) : Ordering :=
  if a < b then Ordering.lt else if b < a then Ordering.gt else Ordering.eq

/-- The ordering of the source: Ord for Item compares solely by price via the
total comparison, ignoring size. -/
def Item.cmp (a b : Item) : Ordering :=
  qcmp a.price b.price

/-- The derived structural equality of the source (PartialEq is derived on
the struct): it compares price and size field by field. -/
def Item.beq (a b : Item) : Bool :=
  a.price == b.price && a.size == b.size

/-- Insertion into the ordered set, keyed by Item.cmp.  When an element that
compares equal is already present the set is left unchanged: the standard
ordered set keeps the existing element and drops the new one. -/
def insertItem (x : Item) : List Item → List Item
  | [] => [x]
  | y :: ys =>
    match Item.cmp x y with
    | Ordering.lt => x :: y :: ys
    | Ordering.eq => y :: ys
    | Ordering.gt => y :: insertItem x ys

/-- Insert each (price, size) pair of the list in order, as the update loop
of the source does. -/
def sideInsertAll (s : List Item) (l : List (ℚ × ℤ)) : List Item :=
  l.foldl (fun acc e => insertItem ⟨e.1, e.2⟩ acc) s

/-- The order book: a bid side and an ask side, each an ordered set of
levels modelled as a list sorted in the iteration order of the set
(ascending price). -/
structure OrderBook where
  bids : List Item
  asks : List Item
deriving DecidableEq, Repr

/-- OrderBook.new creates an empty book. -/
def OrderBook.new : OrderBook :=
  { bids := [], asks := [] }

/-- OrderBook.update: clears both sides, then inserts every supplied
(price, size) pair into the corresponding side. -/
def OrderBook.update (_ob : OrderBook) (bids asks : List (ℚ × ℤ)) : OrderBook :=
  { bids := sideInsertAll [] bids, asks := sideInsertAll [] asks }

/-- One rendered table row: side label, symbol, price, size. -/
def renderRow (side : String) (it : Item) : List String :=
  [side, "ETHUSDTM", toString it.price, toString it.size]

/-- OrderBook.print: takes the book read-only and produces the table rows,
header first, then the bid side in stored (ascending) order, then the ask
side iterated in reverse.  The first component is the book as left behind by
the call; the source takes it by shared reference and cannot mutate it. -/
def OrderBook.print (ob : OrderBook) : OrderBook × List (List String) :=
  (ob,
    [["Type", "Symbol", "Price", "Contract size"]]
      ++ ob.bids.map (renderRow "Bids")
      ++ ob.asks.reverse.map (renderRow "Asks"))

/-- Structured feed values, mirroring the decoding library: numbers remember
whether they were decoded integer-typed or float-typed, since the integer
accessor answers only for integer-typed numbers while the float accessor
answers for both. -/
inductive JValue where
  | null
  | bool (b : Bool)
  | intNum (n : ℤ)
  | floatNum (q : ℚ)
  | str (s : String)
  | arr (elems : List JValue)
  | obj (fields : List (String × JValue))

/-- Field access on a structured value: missing fields and non-objects give
the null value, as the index operation of the decoding library does. -/
def jGet (v : JValue) (key : String) : JValue :=
  match v with
  | JValue.obj fields =>
    match fields.find? (fun f => f.1 == key) with
    | some f => f.2
    | none => JValue.null
  | _ => JValue.null

/-- Positional access: out-of-bounds indices and non-arrays give the null
value, as the index operation of the decoding library does. -/
def jIndex (v : JValue) (i : ℕ) : JValue :=
  match v with
  | JValue.arr xs => xs.getD i JValue.null
  | _ => JValue.null

/-- The float accessor: answers for any number (integers convert). -/
def JValue.as_f64 : JValue → Option ℚ
  | JValue.intNum n => some (n : ℚ)
  | JValue.floatNum q => some q
  | _ => none

/-- The integer accessor: answers only for integer-typed numbers. -/
def JValue.as_i64 : JValue → Option ℤ
  | JValue.intNum n => some n
  | _ => none

/-- The string accessor. -/
def JValue.as_str : JValue → Option String
  | JValue.str s => some s
  | _ => none

/-- The array accessor. -/
def JValue.as_array : JValue → Option (List JValue)
  | JValue.arr xs => some xs
  | _ => none

/-- Value of a run of characters all of which are decimal digits; none when
a non-digit occurs.  The empty run has value 0 (callers rule it out where
needed). -/
def digitsVal? (cs : List Char) : Option ℕ :=
  cs.foldl
    (fun o c => o.bind (fun n => if c.isDigit then some (10 * n + (c.toNat - 48)) else none))
    (some 0)

/-- Split a character list at the first dot, if any. -/
def splitDot : List Char → List Char × Option (List Char)
  | [] => ([], none)
  | c :: rest =>
    if c = '.' then ([], some rest)
    else
      let p := splitDot rest
      (c :: p.1, p.2)

/-- Unsigned decimal literal, integer part optionally followed by a dot and
a fraction part; models the decimal forms accepted by the string-to-float
parse of the standard library (the only forms the feed emits). -/
def parseUnsignedDec (cs : List Char) : Option ℚ :=
  match splitDot cs with
  | (ip, none) =>
    if ip.isEmpty then none
    else (digitsVal? ip).map (fun n => (n : ℚ))
  | (ip, some fp) =>
    if ip.isEmpty && fp.isEmpty then none
    else
      match digitsVal? ip, digitsVal? fp with
      | some n, some f => some ((n : ℚ) + (f : ℚ) / ((10 : ℚ) ^ fp.length))
      | _, _ => none

/-- String-to-float parse: optional sign, then a decimal literal. -/
def parseF64 (s : String) : Option ℚ :=
  match s.data with
  | '+' :: cs => parseUnsignedDec cs
  | '-' :: cs => (parseUnsignedDec cs).map (fun q => -q)
  | cs => parseUnsignedDec cs

/-- Digit run making up an integer: none when empty or when a non-digit
occurs. -/
def parseDigits (cs : List Char) : Option ℕ :=
  if cs.isEmpty then none else digitsVal? cs

/-- String-to-integer parse: optional sign, then digits only. -/
def parseI64 (s : String) : Option ℤ :=
  match s.data with
  | '+' :: cs => (parseDigits cs).map (fun n => (n : ℤ))
  | '-' :: cs => (parseDigits cs).map (fun n => -(n : ℤ))
  | cs => (parseDigits cs).map (fun n => (n : ℤ))

/-- Price extraction for one entry element: try the native float accessor
first, else interpret a string through the string-to-float parse, else
default to zero. -/
def extractPrice (v : JValue) : ℚ :=
  match v.as_f64 with
  | some q => q
  | none =>
    match v.as_str with
    | some s => (parseF64 s).getD 0
    | none => 0

/-- Size extraction for one entry element: try the native integer accessor
first, else interpret a string through the string-to-integer parse, else
default to zero. -/
def extractSize (v : JValue) : ℤ :=
  match v.as_i64 with
  | some n => n
  | none =>
    match v.as_str with
    | some s => (parseI64 s).getD 0
    | none => 0

/-- Extraction of one (price, size) pair from a 2-element entry: element 0
is the price, element 1 the size. -/
def extractEntry (e : JValue) : ℚ × ℤ :=
  (extractPrice (jIndex e 0), extractSize (jIndex e 1))

/-- Extraction of one side from its field value: when the field holds an
array, the first five entries are extracted; otherwise the side is empty. -/
def extractSide (v : JValue) : List (ℚ × ℤ) :=
  match v.as_array with
  | some xs => (xs.take 5).map extractEntry
  | none => []

/-- update_order_book: extract up to five levels per side from the
data.bids and data.asks fields, replace both sides of the book, and render.
Returns the updated book and the rendered rows. -/
def update_order_book (ob : OrderBook) (j : JValue) : OrderBook × List (List String) :=
  let ob' := ob.update
    (extractSide (jGet (jGet j "data") "bids"))
    (extractSide (jGet (jGet j "data") "asks"))
  (ob', (ob'.print).2)

/-- One inbound transport event of the steady-state loop.  A text frame
carries the result of parsing its payload as structured data; a frame that
fails to parse carries none. -/
inductive WsMessage where
  | text (parsed : Option JValue)
  | close
  | failure
  | other

/-- The classification test of the receive loop: the type field of the
payload compared against the string message, as the equality of a structured
value with a string literal behaves (false on any non-string value). -/
def isMessageType (j : JValue) : Bool :=
  match jGet j "type" with
  | JValue.str s => s == "message"
  | _ => false

/-- One iteration of the steady-state receive loop: returns the book after
the event, the renders emitted during the event, and whether the loop
continues.  Only a parsed text frame whose type field equals the message tag
updates and renders; close frames and transport failures end the loop;
everything else is ignored. -/
def stepMessage (ob : OrderBook) (m : WsMessage) :
    OrderBook × List (List (List String)) × Bool :=
  match m with
  | WsMessage.text none => (ob, [], true)
  | WsMessage.text (some j) =>
    if isMessageType j then
      let r := update_order_book ob j
      (r.1, [r.2], true)
    else (ob, [], true)
  | WsMessage.close => (ob, [], false)
  | WsMessage.failure => (ob, [], false)
  | WsMessage.other => (ob, [], true)

/-- Outcome of the credential step of the bootstrap: either a fatal error,
or the full streaming URL handed to the transport connect step. -/
inductive BootStep where
  | fatal (e : String)
  | connectTo (url : String)
deriving DecidableEq, Repr

/-- The credential step: extract the endpoint string from
data.instanceServers[0].endpoint and the token string from data.token; a
missing string at either place is a fatal error and the connect step is
never built. -/
def credentialStep (j : JValue) : BootStep :=
  match (jGet (jIndex (jGet (jGet j "data") "instanceServers") 0) "endpoint").as_str with
  | none => BootStep.fatal "WebSocket URL not found"
  | some wsUrl =>
    match (jGet (jGet j "data") "token").as_str with
    | none => BootStep.fatal "WebSocket Token not found"
    | some token => BootStep.connectTo (wsUrl ++ "?token=" ++ token)

/-! ## Helper lemmas about the ordered-set model -/

theorem qcmp_lt_iff (a b : ℚ) : qcmp a b = Ordering.lt ↔ a < b := by
  unfold qcmp
  split_ifs with h1 h2
  · simp [h1]
  · simp [not_lt_of_gt h2]
  · simp [h1]

theorem qcmp_gt_iff (a b : ℚ) : qcmp a b = Ordering.gt ↔ b < a := by
  unfold qcmp
  split_ifs with h1 h2
  · simp [not_lt_of_gt h1]
  · simp [h2]
  · simp [h2]

theorem qcmp_eq_iff (a b : ℚ) : qcmp a b = Ordering.eq ↔ a = b := by
  unfold qcmp
  split_ifs with h1 h2
  · simp [ne_of_lt h1]
  · simp [ne_of_gt h2]
  · simp [le_antisymm (not_lt.1 h2) (not_lt.1 h1)]

theorem subset_insertItem (x y : Item) (s : List Item) (h : y ∈ s) :
    y ∈ insertItem x s := by
  induction s with
  | nil => cases h
  | cons z zs ih =>
    cases hc : Item.cmp x z <;> simp only [insertItem, hc] <;>
      rcases List.mem_cons.1 h with h' | h'
    · simp [h']
    · simp [List.mem_cons, h']
    · simp [h']
    · simp [List.mem_cons, h']
    · simp [h']
    · simp [List.mem_cons, ih h']

theorem mem_insertItem_or (x y : Item) (s : List Item) (h : y ∈ insertItem x s) :
    y ∈ s ∨ y = x := by
  induction s with
  | nil => simp only [insertItem, List.mem_singleton] at h; exact Or.inr h
  | cons z zs ih =>
    cases hc : Item.cmp x z <;> simp only [insertItem, hc] at h
    · rcases List.mem_cons.1 h with h' | h'
      · exact Or.inr h'
      · exact Or.inl h'
    · exact Or.inl h
    · rcases List.mem_cons.1 h with h' | h'
      · exact Or.inl (List.mem_cons.2 (Or.inl h'))
      · rcases ih h' with h'' | h''
        · exact Or.inl (List.mem_cons.2 (Or.inr h''))
        · exact Or.inr h''

theorem price_self_mem_insertItem (x : Item) (s : List Item) :
    x.price ∈ (insertItem x s).map Item.price := by
  induction s with
  | nil => simp [insertItem]
  | cons z zs ih =>
    cases hc : Item.cmp x z <;> simp only [insertItem, hc, List.map_cons, List.mem_cons]
    · simp
    · exact Or.inl ((qcmp_eq_iff x.price z.price).1 hc)
    · exact Or.inr ih

theorem price_mem_insertItem_iff (x : Item) (p : ℚ) (s : List Item) :
    p ∈ (insertItem x s).map Item.price ↔ p = x.price ∨ p ∈ s.map Item.price := by
  constructor
  · intro h
    obtain ⟨w, hw, hwp⟩ := List.mem_map.1 h
    rcases mem_insertItem_or x w s hw with h' | h'
    · exact Or.inr (hwp ▸ List.mem_map_of_mem Item.price h')
    · exact Or.inl (hwp ▸ h' ▸ rfl)
  · rintro (h | h)
    · exact h ▸ price_self_mem_insertItem x s
    · obtain ⟨w, hw, hwp⟩ := List.mem_map.1 h
      exact hwp ▸ List.mem_map_of_mem Item.price (subset_insertItem x w s hw)

theorem pairwise_insertItem (x : Item) (s : List Item)
    (hs : s.Pairwise (fun a b => a.price < b.price)) :
    (insertItem x s).Pairwise (fun a b => a.price < b.price) := by
  induction s with
  | nil => simp [insertItem]
  | cons z zs ih =>
    rw [List.pairwise_cons] at hs
    obtain ⟨hz, hzs⟩ := hs
    cases hc : Item.cmp x z <;> simp only [insertItem, hc]
    · have hxz : x.price < z.price := (qcmp_lt_iff x.price z.price).1 hc
      refine List.Pairwise.cons ?_ (List.Pairwise.cons hz hzs)
      intro w hw
      rcases List.mem_cons.1 hw with h' | h'
      · exact h' ▸ hxz
      · exact lt_trans hxz (hz w h')
    · exact List.Pairwise.cons hz hzs
    · have hzx : z.price < x.price := (qcmp_gt_iff x.price z.price).1 hc
      refine List.Pairwise.cons ?_ (ih hzs)
      intro w hw
      rcases mem_insertItem_or x w zs hw with h' | h'
      · exact hz w h'
      · exact h' ▸ hzx

theorem mem_insertItem_iff (x y : Item) (s : List Item)
    (hs : s.Pairwise (fun a b => a.price < b.price)) :
    y ∈ insertItem x s ↔ y ∈ s ∨ (y = x ∧ x.price ∉ s.map Item.price) := by
  induction s with
  | nil => simp [insertItem]
  | cons z zs ih =>
    rw [List.pairwise_cons] at hs
    obtain ⟨hz, hzs⟩ := hs
    cases hc : Item.cmp x z
    · have hxz : x.price < z.price := (qcmp_lt_iff x.price z.price).1 hc
      have hnp : x.price ∉ (z :: zs).map Item.price := by
        simp only [List.map_cons, List.mem_cons, not_or]
        refine ⟨ne_of_lt hxz, ?_⟩
        intro hmem
        obtain ⟨w, hw, hwp⟩ := List.mem_map.1 hmem
        exact absurd (hwp ▸ hz w hw) (not_lt_of_gt hxz)
      simp only [insertItem, hc, List.mem_cons, hnp, not_false_iff, and_true]
      tauto
    · have hxz : x.price = z.price := (qcmp_eq_iff x.price z.price).1 hc
      have hp : x.price ∈ (z :: zs).map Item.price := by
        simp [hxz]
      simp only [insertItem, hc, hp, not_true, and_false, or_false]
    · have hzx : z.price < x.price := (qcmp_gt_iff x.price z.price).1 hc
      have hne : ¬ x.price = z.price := ne_of_gt hzx
      simp only [insertItem, hc, List.mem_cons, ih hzs, List.map_cons, not_or, hne,
        not_false_iff, true_and]
      tauto

theorem pairwise_sideInsertAll (l : List (ℚ × ℤ)) (s : List Item)
    (hs : s.Pairwise (fun a b => a.price < b.price)) :
    (sideInsertAll s l).Pairwise (fun a b => a.price < b.price) := by
  induction l generalizing s with
  | nil => exact hs
  | cons e l ih => exact ih (insertItem ⟨e.1, e.2⟩ s) (pairwise_insertItem _ s hs)

theorem mem_sideInsertAll_iff (l : List (ℚ × ℤ)) (s : List Item) (p : ℚ) (sz : ℤ)
    (hs : s.Pairwise (fun a b => a.price < b.price)) :
    Item.mk p sz ∈ sideInsertAll s l ↔
      Item.mk p sz ∈ s ∨
        (p ∉ s.map Item.price ∧ l.find? (fun e => e.1 == p) = some (p, sz)) := by
  induction l generalizing s with
  | nil => simp [sideInsertAll]
  | cons e l ih =>
    have hstep : sideInsertAll s (e :: l) = sideInsertAll (insertItem ⟨e.1, e.2⟩ s) l := rfl
    rw [hstep, ih _ (pairwise_insertItem _ s hs),
      mem_insertItem_iff _ _ _ hs]
    by_cases hep : e.1 = p
    · have hfind : (e :: l).find? (fun e => e.1 == p) = some e :=
        List.find?_cons_of_pos _ (by simp [hep])
      rw [hfind]
      constructor
      · rintro ((h | ⟨h1, h2⟩) | ⟨hnp, _⟩)
        · exact Or.inl h
        · exact Or.inr ⟨hep ▸ h2, by rw [show e = (p, sz) from Prod.ext hep (by
            have := congrArg Item.size h1; simpa using this.symm)]⟩
        · exact absurd (by
            rw [price_mem_insertItem_iff]
            exact Or.inl (by simp [hep])) hnp
      · rintro (h | ⟨hnp, hsome⟩)
        · exact Or.inl (Or.inl h)
        · have he : e = (p, sz) := Option.some_injective _ hsome
          exact Or.inl (Or.inr ⟨by simp [he], by simpa [he] using hnp⟩)
    · have hfind : (e :: l).find? (fun e => e.1 == p) = l.find? (fun e => e.1 == p) :=
        List.find?_cons_of_neg _ (by simp [hep])
      rw [hfind, price_mem_insertItem_iff]
      constructor
      · rintro ((h | ⟨h1, _⟩) | ⟨hnp, hfnd⟩)
        · exact Or.inl h
        · exact absurd (congrArg Item.price h1) (by simpa using fun h => hep h.symm)
        · exact Or.inr ⟨fun hmem => hnp (Or.inr hmem), hfnd⟩
      · rintro (h | ⟨hnp, hfnd⟩)
        · exact Or.inl (Or.inl h)
        · exact Or.inr ⟨by
            simp only [not_or]
            exact ⟨fun h => hep h.symm, hnp⟩, hfnd⟩

theorem length_insertItem_le (x : Item) (s : List Item) :
    (insertItem x s).length ≤ s.length + 1 := by
  induction s with
  | nil => simp [insertItem]
  | cons z zs ih =>
    cases hc : Item.cmp x z <;> simp only [insertItem, hc, List.length_cons]
    · omega
    · omega
    · omega

theorem length_sideInsertAll_le (l : List (ℚ × ℤ)) (s : List Item) :
    (sideInsertAll s l).length ≤ s.length + l.length := by
  induction l generalizing s with
  | nil => simp [sideInsertAll]
  | cons e l ih =>
    have hstep : sideInsertAll s (e :: l) = sideInsertAll (insertItem ⟨e.1, e.2⟩ s) l := rfl
    rw [hstep]
    calc (sideInsertAll (insertItem ⟨e.1, e.2⟩ s) l).length
        ≤ (insertItem ⟨e.1, e.2⟩ s).length + l.length := ih _
      _ ≤ (s.length + 1) + l.length := by
          exact Nat.add_le_add_right (length_insertItem_le _ s) _
      _ = s.length + (e :: l).length := by simp [List.length_cons]; omega

/-! ## Claims -/

/-- C1: OrderBook.update is a full overwrite: the result never depends on the
prior book state, each side is exactly the fold of insertions of the supplied
pairs into a freshly cleared side, and in particular an update with an empty
bids vector leaves the bids side empty regardless of what it held before. -/
theorem update_full_overwrite (ob : OrderBook) (bids asks : List (ℚ × ℤ)) :
    ob.update bids asks = OrderBook.new.update bids asks
      ∧ (ob.update bids asks).bids = sideInsertAll [] bids
      ∧ (ob.update bids asks).asks = sideInsertAll [] asks
      ∧ (ob.update [] asks).bids = [] :=
  ⟨rfl, rfl, rfl, rfl⟩

/-- C2: after any update call on any prior book state (hence after each call
of every update sequence starting from the empty book), iterating either side
yields levels in strictly increasing price order, and no two entries within a
side share a price. -/
theorem update_sides_strictly_sorted (ob : OrderBook) (bids asks : List (ℚ × ℤ)) :
    ((ob.update bids asks).bids.Pairwise (fun a b => a.price < b.price)
      ∧ (ob.update bids asks).asks.Pairwise (fun a b => a.price < b.price))
    ∧ ((ob.update bids asks).bids.Pairwise (fun a b => a.price ≠ b.price)
      ∧ (ob.update bids asks).asks.Pairwise (fun a b => a.price ≠ b.price)) := by
  have hb := pairwise_sideInsertAll bids [] (by simp)
  have ha := pairwise_sideInsertAll asks [] (by simp)
  exact ⟨⟨hb, ha⟩, ⟨hb.imp ne_of_lt, ha.imp ne_of_lt⟩⟩

/-- C10: when the vector passed to OrderBook.update contains entries with
equal prices, the level stored for a price is exactly the first entry of the
vector carrying that price: a later duplicate never replaces the
already-stored level.  Stated for both sides as a full characterization of
membership through the first-match search. -/
theorem duplicate_price_first_wins (ob : OrderBook) (l : List (ℚ × ℤ)) (p : ℚ) (sz : ℤ) :
    (Item.mk p sz ∈ (ob.update l []).bids ↔
        l.find? (fun e => e.1 == p) = some (p, sz))
    ∧ (Item.mk p sz ∈ (ob.update [] l).asks ↔
        l.find? (fun e => e.1 == p) = some (p, sz)) := by
  have h := mem_sideInsertAll_iff l [] p sz (by simp)
  simp only [List.not_mem_nil, List.map_nil, false_or, not_false_iff, true_and] at h
  constructor
  · exact h
  · exact h

/-- C4 counterexample: two Items with equal price and different sizes compare
as equal under the ordering, yet they are not equal under the derived
structural equality, which also compares size; so the claim that both the
equality relation and the ordering are defined purely by price is false. -/
theorem item_equality_not_price_only :
    Item.cmp ⟨1, 1⟩ ⟨1, 2⟩ = Ordering.eq ∧ Item.beq ⟨1, 1⟩ ⟨1, 2⟩ = false := by
  constructor
  · decide
  · decide

/-- C4 amended: the ordering on Item is defined purely by the price field
through the total comparison, so any two Items with the same price compare
as equal in the ordering regardless of size; the derived structural equality,
however, compares both price and size. -/
theorem item_cmp_price_only (a b : Item) :
    (Item.cmp a b = Ordering.eq ↔ a.price = b.price)
      ∧ (Item.cmp a b = Ordering.lt ↔ a.price < b.price)
      ∧ (Item.cmp a b = Ordering.gt ↔ b.price < a.price)
      ∧ (Item.beq a b = true ↔ a.price = b.price ∧ a.size = b.size) := by
  refine ⟨qcmp_eq_iff _ _, qcmp_lt_iff _ _, qcmp_gt_iff _ _, ?_⟩
  simp [Item.beq]

/-- C3: value extraction tries the native numeric accessors first, then
string-to-number parsing, and defaults to a zero price and zero size when
both fail; string-encoded and native encodings of the same entry extract the
same pair, a fully malformed entry extracts the zero pair, and a malformed
entry does not abort the surrounding update: the remaining entries of the
same message are still applied. -/
theorem extraction_value_semantics :
    extractEntry (JValue.arr [JValue.str "60000.0", JValue.str "1"]) = (60000, 1)
    ∧ extractEntry (JValue.arr [JValue.floatNum 60000, JValue.intNum 1]) = (60000, 1)
    ∧ extractEntry (JValue.arr [JValue.str "bad", JValue.str "bad"]) = (0, 0)
    ∧ (∀ n : ℤ, extractPrice (JValue.intNum n) = (n : ℚ))
    ∧ (∀ q : ℚ, extractPrice (JValue.floatNum q) = q)
    ∧ (∀ s : String, extractPrice (JValue.str s) = (parseF64 s).getD 0)
    ∧ (∀ n : ℤ, extractSize (JValue.intNum n) = n)
    ∧ (∀ s : String, extractSize (JValue.str s) = (parseI64 s).getD 0)
    ∧ (∀ ob : OrderBook,
        (update_order_book ob (JValue.obj [("type", JValue.str "message"),
          ("data", JValue.obj [("bids", JValue.arr
              [JValue.arr [JValue.str "bad", JValue.str "bad"],
               JValue.arr [JValue.str "100.0", JValue.str "2"]]),
            ("asks", JValue.arr [])])])).1.bids
          = [Item.mk 0 0, Item.mk 100 2]) := by
  refine ⟨?_, ?_, ?_, fun n => rfl, fun q => rfl, fun s => rfl, fun n => rfl,
    fun s => rfl, fun ob => ?_⟩
  · simp +decide [extractEntry, extractPrice, extractSize, jIndex, JValue.as_f64,
      JValue.as_str, JValue.as_i64, parseF64, parseUnsignedDec, splitDot, digitsVal?,
      parseI64, parseDigits]
  · simp +decide [extractEntry, extractPrice, extractSize, jIndex, JValue.as_f64,
      JValue.as_i64]
  · simp +decide [extractEntry, extractPrice, extractSize, jIndex, JValue.as_f64,
      JValue.as_str, JValue.as_i64, parseF64, parseUnsignedDec, splitDot, digitsVal?,
      parseI64, parseDigits]
  · simp +decide [update_order_book, OrderBook.update, extractSide, extractEntry,
      extractPrice, extractSize, jIndex, jGet, JValue.as_f64, JValue.as_str,
      JValue.as_i64, JValue.as_array, parseF64, parseUnsignedDec, splitDot, digitsVal?,
      parseI64, parseDigits, sideInsertAll, insertItem, Item.cmp, qcmp]

/-- C5: OrderBook.print is a pure read.  On any book produced by an update it
hands the book back unchanged, renders a header followed by the bid side in
its stored ascending price order and then the ask side iterated in reverse,
the bid rows carry strictly increasing prices, the ask rows carry strictly
decreasing prices, and a second call on the state left by the first call
produces the identical output. -/
theorem print_pure_read (ob : OrderBook) (bids asks : List (ℚ × ℤ)) :
    ((ob.update bids asks).print).1 = ob.update bids asks
    ∧ ((ob.update bids asks).print).2
        = [["Type", "Symbol", "Price", "Contract size"]]
          ++ (ob.update bids asks).bids.map (renderRow "Bids")
          ++ (ob.update bids asks).asks.reverse.map (renderRow "Asks")
    ∧ ((ob.update bids asks).bids.map Item.price).Pairwise (· < ·)
    ∧ (((ob.update bids asks).asks.reverse).map Item.price).Pairwise (· > ·)
    ∧ (((ob.update bids asks).print).1).print = (ob.update bids asks).print := by
  refine ⟨rfl, rfl, ?_, ?_, rfl⟩
  · rw [List.pairwise_map]
    exact pairwise_sideInsertAll bids [] (by simp)
  · rw [List.pairwise_map, List.pairwise_reverse]
    exact pairwise_sideInsertAll asks [] (by simp)

/-- C6: a received text frame whose parsed payload has a type field different
from the message tag neither updates nor renders the book: the state is
returned unchanged, no render is emitted, and the loop continues. -/
theorem non_message_frame_ignored (ob : OrderBook) (j : JValue)
    (h : isMessageType j = false) :
    stepMessage ob (WsMessage.text (some j)) = (ob, [], true) := by
  simp [stepMessage, h]

/-- Witness for C6 at a concrete acknowledgment-style payload. -/
theorem non_message_frame_ignored_witness :
    isMessageType (JValue.obj [("type", JValue.str "welcome")]) = false
    ∧ stepMessage OrderBook.new
        (WsMessage.text (some (JValue.obj [("type", JValue.str "welcome")])))
      = (OrderBook.new, [], true) :=
  ⟨by decide,
   non_message_frame_ignored OrderBook.new
     (JValue.obj [("type", JValue.str "welcome")]) (by decide)⟩

/-- C7: when the bids field (respectively asks field) of the data object is
missing or not an array, extraction yields the empty sequence for that side,
update_order_book still performs the replacement, and the absent side of the
resulting book is empty while the other side is still fully replaced. -/
theorem missing_side_still_replaces :
    (∀ (ob : OrderBook) (j : JValue),
        (jGet (jGet j "data") "bids").as_array = none →
          extractSide (jGet (jGet j "data") "bids") = []
          ∧ (update_order_book ob j).1
              = ob.update [] (extractSide (jGet (jGet j "data") "asks"))
          ∧ (update_order_book ob j).1.bids = [])
    ∧ (∀ (ob : OrderBook) (j : JValue),
        (jGet (jGet j "data") "asks").as_array = none →
          extractSide (jGet (jGet j "data") "asks") = []
          ∧ (update_order_book ob j).1
              = ob.update (extractSide (jGet (jGet j "data") "bids")) []
          ∧ (update_order_book ob j).1.asks = []) := by
  constructor
  · intro ob j h
    have he : extractSide (jGet (jGet j "data") "bids") = [] := by
      simp [extractSide, h]
    refine ⟨he, ?_, ?_⟩
    · show ob.update _ _ = _
      rw [he]
    · show (ob.update _ _).bids = []
      rw [he]
      rfl
  · intro ob j h
    have he : extractSide (jGet (jGet j "data") "asks") = [] := by
      simp [extractSide, h]
    refine ⟨he, ?_, ?_⟩
    · show ob.update _ _ = _
      rw [he]
    · show (ob.update _ _).asks = []
      rw [he]
      rfl

/-- Witness for C7 at concrete payloads, one lacking the bids field and one
lacking the asks field. -/
theorem missing_side_still_replaces_witness :
    (update_order_book OrderBook.new (JValue.obj [("data", JValue.obj [("asks",
        JValue.arr [JValue.arr [JValue.intNum 5, JValue.intNum 7]])])])).1.bids = []
    ∧ (update_order_book OrderBook.new (JValue.obj [("data", JValue.obj [("bids",
        JValue.arr [JValue.arr [JValue.intNum 5, JValue.intNum 7]])])])).1.asks = [] :=
  ⟨(missing_side_still_replaces.1 OrderBook.new
      (JValue.obj [("data", JValue.obj [("asks",
        JValue.arr [JValue.arr [JValue.intNum 5, JValue.intNum 7]])])]) rfl).2.2,
   (missing_side_still_replaces.2 OrderBook.new
      (JValue.obj [("data", JValue.obj [("bids",
        JValue.arr [JValue.arr [JValue.intNum 5, JValue.intNum 7]])])]) rfl).2.2⟩

/-- C8: level extraction takes at most the first five entries of a side
array, entries beyond the fifth never influence the result, and consequently
every book produced by update_order_book holds at most five levels per
side. -/
theorem extraction_depth_bound :
    (∀ v : JValue, (extractSide v).length ≤ 5)
    ∧ (∀ (xs ys : List JValue), 5 ≤ xs.length →
        extractSide (JValue.arr (xs ++ ys)) = extractSide (JValue.arr xs))
    ∧ (∀ (ob : OrderBook) (j : JValue),
        (update_order_book ob j).1.bids.length ≤ 5
        ∧ (update_order_book ob j).1.asks.length ≤ 5) := by
  have hlen : ∀ v : JValue, (extractSide v).length ≤ 5 := by
    intro v
    cases v <;> simp [extractSide, JValue.as_array]
  refine ⟨hlen, ?_, ?_⟩
  · intro xs ys h
    simp [extractSide, JValue.as_array, List.take_append_of_le_length h]
  · intro ob j
    constructor
    · have h1 := length_sideInsertAll_le (extractSide (jGet (jGet j "data") "bids")) []
      have h2 := hlen (jGet (jGet j "data") "bids")
      simp only [List.length_nil, Nat.zero_add] at h1
      exact le_trans h1 h2
    · have h1 := length_sideInsertAll_le (extractSide (jGet (jGet j "data") "asks")) []
      have h2 := hlen (jGet (jGet j "data") "asks")
      simp only [List.length_nil, Nat.zero_add] at h1
      exact le_trans h1 h2

/-- Witness for C8 on a six-entry side array: the sixth entry is ignored. -/
theorem extraction_depth_bound_witness :
    5 ≤ ([JValue.null, JValue.null, JValue.null, JValue.null, JValue.null] :
        List JValue).length
    ∧ extractSide (JValue.arr
        ([JValue.null, JValue.null, JValue.null, JValue.null, JValue.null]
          ++ [JValue.intNum 9]))
      = extractSide (JValue.arr
          [JValue.null, JValue.null, JValue.null, JValue.null, JValue.null]) :=
  ⟨by simp,
   extraction_depth_bound.2.1
     [JValue.null, JValue.null, JValue.null, JValue.null, JValue.null]
     [JValue.intNum 9] (by simp)⟩

/-- C9: when the credential response has no string at data.token or no string
at data.instanceServers[0].endpoint, the credential step is a fatal error and
never produces a connect target: the transport connect step is unreachable. -/
theorem missing_credentials_fatal (j : JValue)
    (h : (jGet (jGet j "data") "token").as_str = none
        ∨ (jGet (jIndex (jGet (jGet j "data") "instanceServers") 0) "endpoint").as_str
            = none) :
    (∃ e, credentialStep j = BootStep.fatal e)
    ∧ ∀ url, credentialStep j ≠ BootStep.connectTo url := by
  have hstep : ∃ e, credentialStep j = BootStep.fatal e := by
    rcases h with h | h
    · unfold credentialStep
      cases hend : (jGet (jIndex (jGet (jGet j "data") "instanceServers") 0)
          "endpoint").as_str with
      | none => exact ⟨_, rfl⟩
      | some url =>
        rw [h]
        exact ⟨_, rfl⟩
    · unfold credentialStep
      rw [h]
      exact ⟨_, rfl⟩
  obtain ⟨e, he⟩ := hstep
  refine ⟨⟨e, he⟩, fun url hurl => ?_⟩
  rw [he] at hurl
  exact absurd hurl (by simp)

/-- Witness for C9 at a concrete credential response carrying an endpoint but
no token. -/
theorem missing_credentials_fatal_witness :
    (∃ e, credentialStep (JValue.obj [("data", JValue.obj [("instanceServers",
        JValue.arr [JValue.obj [("endpoint", JValue.str "wss://example")]])])])
      = BootStep.fatal e)
    ∧ ∀ url, credentialStep (JValue.obj [("data", JValue.obj [("instanceServers",
        JValue.arr [JValue.obj [("endpoint", JValue.str "wss://example")]])])])
      ≠ BootStep.connectTo url :=
  missing_credentials_fatal
    (JValue.obj [("data", JValue.obj [("instanceServers",
      JValue.arr [JValue.obj [("endpoint", JValue.str "wss://example")]])])])
    (Or.inl rfl)
